import Mathlib

set_option maxHeartbeats 1000000

/-!
Verification development for the audio resampler of this repository.

The definitions below are a shallow embedding of `src/codec/audio/resampler.c`
and `src/time.c`.  The external libavutil / libswresample capabilities the two
files call (frame allocation, the conversion engine, the rescale helpers) are
modelled at their documented interface, exactly as the design treats them:
opaque collaborators whose behaviour is a parameter of the development.
-/

/-- The C `int64_t` minimum, `-2^63`. -/
def INT64_MIN : Int := -(2 ^ 63)

/-- The C `int64_t` maximum, `2^63 - 1`. -/
def INT64_MAX : Int := 2 ^ 63 - 1

/-- `AV_NOPTS_VALUE` (libavutil): the reserved "unknown timestamp" sentinel,
numerically equal to `INT64_MIN`. -/
def AV_NOPTS_VALUE : Int := -(2 ^ 63)

/-- Two's-complement wraparound of a mathematical integer into the `int64_t`
range, modelling what mainstream compilers do to a signed 64-bit
multiplication that overflows. -/
def wrap64 (x : Int) : Int := (x + 2 ^ 63) % 2 ^ 64 - 2 ^ 63

/-- Rounded integer division of `num` by `den` (for `den > 0`) following the
`AVRounding` modes: 0 = toward zero, 1 = away from zero, 2 = down, 3 = up,
5 = nearest with halfway cases away from zero. -/
def avRoundDiv (num den : Int) (rnd : Nat) : Int :=
  if rnd = 0 then Int.tdiv num den
  else if rnd = 1 then
    (if 0 ≤ num then -(Int.fdiv (-num) den) else Int.fdiv num den)
  else if rnd = 2 then Int.fdiv num den
  else if rnd = 3 then -(Int.fdiv (-num) den)
  else
    (if 0 ≤ num then Int.fdiv (2 * num + den) (2 * den)
     else -(Int.fdiv (2 * (-num) + den) (2 * den)))

/-- The `AV_ROUND_PASS_MINMAX` flag bit of `AVRounding` (8192). -/
def AV_ROUND_PASS_MINMAX : Nat := 8192

/-- Modelled from the documented contract of libavutil `av_rescale_rnd` (an
external library function, not part of this repository): rescale `a * b / c`
with the requested rounding, internally overflow-safe, returning `INT64_MIN`
when `c <= 0`, `b < 0`, the rounding mode is invalid, or the result is not
representable in 64 bits; with `AV_ROUND_PASS_MINMAX` set, `INT64_MIN` and
`INT64_MAX` inputs are passed through unchanged. -/
def av_rescale_rnd (a b c : Int) (rnd : Nat) : Int :=
  let pass := Nat.testBit rnd 13
  let mode := if pass then rnd - AV_ROUND_PASS_MINMAX else rnd
  if c ≤ 0 ∨ b < 0 ∨ ¬(mode ≤ 5 ∧ mode ≠ 4) then INT64_MIN
  else if pass ∧ (a = INT64_MIN ∨ a = INT64_MAX) then a
  else
    let r := avRoundDiv (a * b) c mode
    if r < INT64_MIN ∨ INT64_MAX < r then INT64_MIN else r

/-- Modelled from the documented contract of libavutil `av_rescale`:
`av_rescale_rnd` with `AV_ROUND_NEAR_INF` (mode 5). -/
def av_rescale (a b c : Int) : Int := av_rescale_rnd a b c 5

/-- The `ROUNDED_DIV(a, b)` macro of libavutil `common.h`:
`((a) >= 0 ? (a) + ((b) >> 1) : (a) - ((b) >> 1)) / (b)`, with C truncating
division and an arithmetic right shift. -/
def ROUNDED_DIV (a b : Int) : Int :=
  Int.tdiv (if 0 ≤ a then a + Int.fdiv b 2 else a - Int.fdiv b 2) b

/-- `ffw_rescale_rnd` from `src/time.c` (lines 4-10).  The two cross products
`aq_num * (int64_t)bq_den` and `bq_num * (int64_t)aq_den` are computed in C
`int64_t` arithmetic, so each wraps around whenever the mathematical product
exceeds the signed 64-bit range (`wrap64`). -/
def ffw_rescale_rnd (n : Int) (aq_num aq_den bq_num bq_den : Nat) (rnd : Nat) : Int :=
  let a := wrap64 ((aq_num : Int) * (bq_den : Int))
  let b := wrap64 ((bq_num : Int) * (aq_den : Int))
  av_rescale_rnd n a b rnd

/-- Model of an `AVFrame` as the resampler uses it: the logical sample count,
the presentation timestamp, the allocated per-channel sample storage (one
flattened channel view; all channels move together under `av_samples_copy`),
the stream parameters stamped by `alloc_frame`, and a writability flag
standing for libavutil's `av_frame_is_writable` unique-ownership query.
Cloning a frame shares its buffers, so a clone leaves the stored original no
longer writable (the conservative deterministic reading in which the consumer
keeps its reference). -/
structure Frame where
  nb_samples : Nat
  pts : Int
  data : List Int
  channel_layout : Nat
  format : Nat
  sample_rate : Nat
  writable : Bool
deriving DecidableEq

/-- Modelled from the documented contract of libavutil
`av_get_channel_layout_nb_channels`: the number of set bits of the
channel-layout mask. -/
def av_get_channel_layout_nb_channels (layout : Nat) : Nat :=
  (Nat.bits layout).count true

/-- `alloc_frame` from `src/codec/audio/resampler.c` (lines 30-57): allocate a
frame with the given layout, format, rate and sample count.  `av_frame_alloc`
initialises the PTS to `AV_NOPTS_VALUE`; `av_frame_get_buffer` is modelled as
always succeeding, yielding zero-initialised storage that is uniquely
owned. -/
def alloc_frame (channel_layout sample_fmt sample_rate nb_samples : Nat) : Frame :=
  { nb_samples := nb_samples
    pts := AV_NOPTS_VALUE
    data := List.replicate nb_samples 0
    channel_layout := channel_layout
    format := sample_fmt
    sample_rate := sample_rate
    writable := true }

/-- Interface model of the opaque libswresample capability (`SwrContext`)
with engine state type `σ`: `swr_get_out_samples`, `swr_get_delay`,
`swr_convert_frame` (returns the updated engine state, the C return code and
the list of samples the engine writes at the start of the destination buffer,
also becoming its sample count) and `swr_next_pts`.  The development is
parametric in this structure: theorems hold for every engine behaviour. -/
structure SwrApi (σ : Type) where
  get_out_samples : σ → Nat → Int
  get_delay : σ → Nat → Int
  convert_frame : σ → Option Frame → Frame → σ × Int × List Int
  next_pts : σ → Int → σ × Int

/-- The `AudioResampler` state struct (resampler.c lines 5-28).  The declared
but never initialised and never read `min_compensation` field is omitted; the
five `int64_t` bookkeeping counters that are zero-initialised and never read
are kept.  The `AVRational source_time_base` is split into its two fields. -/
structure AudioResampler (σ : Type) where
  resample_context : σ
  tmp_frame : Option Frame
  output_frame : Option Frame
  target_channel_layout : Nat
  target_channels : Nat
  target_sample_format : Nat
  target_sample_rate : Nat
  target_frame_samples : Nat
  source_time_base_num : Int
  source_time_base_den : Int
  source_sample_rate : Nat
  tmp_frame_capacity : Nat
  source_samples : Int
  expected_source_pts : Int
  output_samples : Int
  input_pts_offset : Int
  output_pts_offset : Int
  offset : Nat
  flush : Bool
deriving DecidableEq

/-- `ffw_audio_resampler_new` (resampler.c lines 71-138): construct the
initial resampler state.  `swr_alloc_set_opts` / `swr_init` are modelled by
the caller-supplied initial engine state `ctx` (engine construction is
outside this repository); the source layout/format parameters go only into
the engine and so do not appear here. -/
def ffw_audio_resampler_new {σ : Type} (ctx : σ)
    (target_channel_layout target_sample_format target_sample_rate
      target_frame_samples source_sample_rate : Nat) : AudioResampler σ :=
  { resample_context := ctx
    tmp_frame := none
    output_frame := none
    target_channel_layout := target_channel_layout
    target_channels := av_get_channel_layout_nb_channels target_channel_layout
    target_sample_format := target_sample_format
    target_sample_rate := target_sample_rate
    target_frame_samples := target_frame_samples
    source_time_base_num := 1
    source_time_base_den := (source_sample_rate : Int)
    source_sample_rate := source_sample_rate
    tmp_frame_capacity := 0
    source_samples := 0
    expected_source_pts := 0
    output_samples := 0
    input_pts_offset := 0
    output_pts_offset := 0
    offset := 0
    flush := false }

/-- Lines 165-205 of `ffw_audio_resampler_push_frame`: scratch-buffer
(re)allocation, the conversion call, and the output-PTS computation.  `r1`
already carries the flush flag set by the sentinel branch.  The result is
`none` exactly when control reaches line 193 (`frame->pts`) with `frame`
being the NULL end-of-input sentinel, which in the C source is an undefined
null-pointer dereference. -/
def push_convert {σ : Type} (E : SwrApi σ) (r1 : AudioResampler σ)
    (frame : Option Frame) (required_capacity : Int) :
    Option (Int × AudioResampler σ) :=
  -- lines 165-181: reallocate the scratch frame when absent, shared or small
  let alloc := fun _ : Unit =>
    alloc_frame r1.target_channel_layout r1.target_sample_format
      r1.target_sample_rate required_capacity.toNat
  let (t0, cap) :=
    match r1.tmp_frame with
    | some t =>
      if t.writable = false ∨ (r1.tmp_frame_capacity : Int) < required_capacity then
        (alloc (), required_capacity.toNat)
      else
        (t, r1.tmp_frame_capacity)
    | none => (alloc (), required_capacity.toNat)
  -- lines 183-184: reset the batch sample count and the read cursor
  let t1 := { t0 with nb_samples := 0 }
  let r2 := { r1 with tmp_frame := some t1, tmp_frame_capacity := cap, offset := 0 }
  -- line 186: swr_convert_frame
  let conv := E.convert_frame r2.resample_context frame t1
  let r3 := { r2 with resample_context := conv.1 }
  if conv.2.1 < 0 then
    some (conv.2.1, r3)
  else
    let t2 := { t1 with nb_samples := conv.2.2.length
                        data := conv.2.2 ++ t1.data.drop conv.2.2.length }
    -- line 193: `frame->pts` — undefined behaviour when frame is NULL
    match frame with
    | none => none
    | some f =>
      if f.pts ≠ AV_NOPTS_VALUE then
        -- lines 194-200
        let orig_pts := av_rescale f.pts
          (r3.source_time_base_num * (r3.target_sample_rate : Int)
            * (r3.source_sample_rate : Int))
          r3.source_time_base_den
        let np := E.next_pts r3.resample_context orig_pts
        some (1, { r3 with resample_context := np.1
                           tmp_frame := some { t2 with
                             pts := ROUNDED_DIV np.2 (r3.source_sample_rate : Int) } })
      else
        -- line 202
        some (1, { r3 with tmp_frame := some { t2 with pts := AV_NOPTS_VALUE } })

/-- `ffw_audio_resampler_push_frame` (resampler.c lines 140-206).  The value
is the C return code paired with the updated state; `none` marks the
undefined behaviour of dereferencing the NULL input frame at line 193. -/
def ffw_audio_resampler_push_frame {σ : Type} (E : SwrApi σ)
    (r : AudioResampler σ) (frame : Option Frame) :
    Option (Int × AudioResampler σ) :=
  -- lines 144-147: reject the push while the previous batch is not consumed
  if (match r.tmp_frame with
      | some t => decide (r.offset < t.nb_samples)
      | none => false) then
    some (0, r)
  else
    -- lines 149-159: capacity estimate; the sentinel sets the flush flag
    let step :=
      match frame with
      | some f => (r, E.get_out_samples r.resample_context f.nb_samples)
      | none =>
        ({ r with flush := true },
          E.get_delay r.resample_context r.target_sample_rate + 3)
    -- lines 161-163
    if step.2 < 0 then
      some (step.2, step.1)
    else
      push_convert E step.1 frame step.2

/-- Lines 218-230 of `ffw_audio_resampler_take_frame`: pass-through mode.
The flush flag is reset first; a non-empty batch is handed out as a shared
clone and the stored batch is marked emptied. -/
def take_passthrough {σ : Type} (r : AudioResampler σ) (t : Frame) :
    Int × Option Frame × AudioResampler σ :=
  let r1 := { r with flush := false }
  if 0 < t.nb_samples then
    (1, some t,
      { r1 with tmp_frame := some { t with nb_samples := 0, writable := false } })
  else
    (0, none, r1)

/-- Lines 232-248 of `ffw_audio_resampler_take_frame`: make sure the
accumulation frame exists and is writable, (re)allocating it at the fixed
target size with sample count zero otherwise. -/
def ensure_output {σ : Type} (r : AudioResampler σ) : Frame :=
  match r.output_frame with
  | some o =>
    if o.writable then o
    else
      { alloc_frame r.target_channel_layout r.target_sample_format
          r.target_sample_rate r.target_frame_samples with nb_samples := 0 }
  | none =>
    { alloc_frame r.target_channel_layout r.target_sample_format
        r.target_sample_rate r.target_frame_samples with nb_samples := 0 }

/-- Lines 250-258 of `ffw_audio_resampler_take_frame`: how many samples the
copy step moves, the minimum of the space left in the accumulation frame
`out0` and the unread samples of the scratch batch `t`. -/
def copy_count {σ : Type} (r : AudioResampler σ) (t out0 : Frame) : Int :=
  let required_samples : Int := (r.target_frame_samples : Int) - (out0.nb_samples : Int)
  let available_samples : Int := (t.nb_samples : Int) - (r.offset : Int)
  if required_samples < available_samples then required_samples else available_samples

/-- Lines 260-278 of `ffw_audio_resampler_take_frame`: when the copy count is
positive, `av_samples_copy` the unread scratch samples into the accumulation
frame, stamp the accumulation PTS on the first copy into an empty
accumulation frame, and advance the read cursor and the accumulated count.
Returns the updated accumulation frame and read cursor. -/
def do_copy {σ : Type} (r : AudioResampler σ) (t out0 : Frame) : Frame × Nat :=
  let copy_samples := copy_count r t out0
  if 0 < copy_samples then
    let c := copy_samples.toNat
    let copied := { out0 with
      data := out0.data.take out0.nb_samples
        ++ (t.data.drop r.offset).take c
        ++ out0.data.drop (out0.nb_samples + c) }
    let withPts :=
      if out0.nb_samples = 0 then
        { copied with pts := t.pts + (r.offset : Int) }
      else copied
    ({ withPts with nb_samples := out0.nb_samples + c }, r.offset + c)
  else
    (out0, r.offset)

/-- Lines 250-296 of `ffw_audio_resampler_take_frame`: fixed-size mode.
Copy as many unread scratch samples as still fit, then emit either when the
target size is reached or unconditionally while flushing; emission resets the
accumulation count and clears the flush flag once the scratch batch is fully
drained. -/
def take_fixed {σ : Type} (r : AudioResampler σ) (t : Frame) :
    Int × Option Frame × AudioResampler σ :=
  let step := do_copy r t (ensure_output r)
  -- lines 280-284
  if r.flush = false ∧ step.1.nb_samples < r.target_frame_samples then
    (0, none, { r with output_frame := some step.1, offset := step.2 })
  else
    -- lines 286-296
    (1, some step.1,
      { r with
          output_frame := some { step.1 with nb_samples := 0, writable := false }
          offset := step.2
          flush := if t.nb_samples ≤ step.2 then false else r.flush })

/-- `ffw_audio_resampler_take_frame` (resampler.c lines 208-297): the C
return code, the frame written through the out-parameter (if any), and the
updated state. -/
def ffw_audio_resampler_take_frame {σ : Type} (r : AudioResampler σ) :
    Int × Option Frame × AudioResampler σ :=
  match r.tmp_frame with
  | none => (0, none, r)          -- lines 213-216: sanity check
  | some t =>
    if r.target_frame_samples = 0 then
      take_passthrough r t
    else
      take_fixed r t

/-- One caller operation: pushing an input frame, pushing the end-of-input
sentinel, or pulling. -/
inductive Op where
| push : Frame → Op
| pushEnd : Op
| pull : Op
deriving DecidableEq

/-- Run a list of operations from a state, collecting every frame handed out
by a pull.  A push that hits the NULL-dereference undefined behaviour aborts
the run at that point. -/
def runOps {σ : Type} (E : SwrApi σ) :
    AudioResampler σ → List Op → Option (AudioResampler σ) × List Frame
  | r, [] => (some r, [])
  | r, Op.push f :: rest =>
    match ffw_audio_resampler_push_frame E r (some f) with
    | some p => runOps E p.2 rest
    | none => (none, [])
  | r, Op.pushEnd :: rest =>
    match ffw_audio_resampler_push_frame E r none with
    | some p => runOps E p.2 rest
    | none => (none, [])
  | r, Op.pull :: rest =>
    let q := ffw_audio_resampler_take_frame r
    match q.2.1 with
    | some f => ((runOps E q.2.2 rest).1, f :: (runOps E q.2.2 rest).2)
    | none => runOps E q.2.2 rest

/-- States reachable from a freshly constructed resampler by any interleaving
of push and pull calls (a push that crashes yields no successor state). -/
inductive Reachable {σ : Type} (E : SwrApi σ) : AudioResampler σ → Prop where
| init (ctx : σ) (tcl tsf tsr tfs ssr : Nat) :
    Reachable E (ffw_audio_resampler_new ctx tcl tsf tsr tfs ssr)
| push (r : AudioResampler σ) (f : Option Frame) (ret : Int)
    (r' : AudioResampler σ) :
    Reachable E r → ffw_audio_resampler_push_frame E r f = some (ret, r') →
    Reachable E r'
| pull (r : AudioResampler σ) :
    Reachable E r → Reachable E (ffw_audio_resampler_take_frame r).2.2

/-! ### Concrete fixtures used by the evaluation theorems and witnesses -/

/-- A concrete engine behaviour: the capacity estimate equals the input count,
the internal delay is zero, conversion copies the input samples through
unchanged, and the PTS generator is the identity. -/
def testSwr : SwrApi Unit :=
  { get_out_samples := fun _ n => (n : Int)
    get_delay := fun _ _ => 0
    convert_frame := fun _ fr _ =>
      ((), 0, match fr with | some g => g.data.take g.nb_samples | none => [])
    next_pts := fun _ p => ((), p) }

/-- A four-sample input frame whose PTS is the unknown sentinel. -/
def flat4 : Frame :=
  { nb_samples := 4
    pts := AV_NOPTS_VALUE
    data := [10, 20, 30, 40]
    channel_layout := 3
    format := 1
    sample_rate := 48000
    writable := true }

/-- A fresh resampler configured with fixed target frame size 2. -/
def rs0 : AudioResampler Unit := ffw_audio_resampler_new () 3 1 48000 2 48000

/-- The state after pushing `flat4` (unknown PTS) into `rs0`. -/
def rs1 : AudioResampler Unit :=
  ((ffw_audio_resampler_push_frame testSwr rs0 (some flat4)).getD (0, rs0)).2

/-- First pull from `rs1` in fixed-size mode. -/
def rsPull1 := ffw_audio_resampler_take_frame rs1

/-- Second pull, draining the rest of the scratch batch. -/
def rsPull2 := ffw_audio_resampler_take_frame rsPull1.2.2

/-- A two-sample frame used as an unconsumed scratch batch. -/
def frameA : Frame :=
  { nb_samples := 2
    pts := 100
    data := [1, 2]
    channel_layout := 3
    format := 1
    sample_rate := 48000
    writable := true }

/-- A four-sample scratch batch with a known PTS. -/
def frameC : Frame :=
  { nb_samples := 4
    pts := 50
    data := [5, 6, 7, 8]
    channel_layout := 3
    format := 1
    sample_rate := 48000
    writable := true }

/-- A state whose scratch batch still has one unread sample. -/
def rsBusy : AudioResampler Unit :=
  { rs0 with tmp_frame := some frameA, offset := 1 }

/-- A flushing state whose scratch batch is fully consumed and whose
accumulation buffer has never been created. -/
def rsFlushed : AudioResampler Unit :=
  { rs0 with tmp_frame := some frameC, offset := 4, flush := true }

/-- A flushing state with a partially read scratch batch. -/
def rsFlushing : AudioResampler Unit :=
  { rs0 with tmp_frame := some frameC, offset := 1, flush := true }

/-- A steady state with a partially read scratch batch and empty
accumulation buffer. -/
def rsMid : AudioResampler Unit :=
  { rs0 with tmp_frame := some frameC, offset := 1 }

/-! ### Helper lemmas about the accumulation-frame guarantee step -/

/-- If the stored accumulation frame is absent, empty, or no longer writable,
the frame produced by the guarantee step (lines 232-248) is empty. -/
theorem ensure_output_nb_eq_zero {σ : Type} (r : AudioResampler σ)
    (hout : r.output_frame = none ∨
      ∃ o, r.output_frame = some o ∧ (o.nb_samples = 0 ∨ o.writable = false)) :
    (ensure_output r).nb_samples = 0 := by
  rcases hout with h | ⟨o, h, ho⟩
  · simp [ensure_output, h, alloc_frame]
  · simp only [ensure_output, h]
    rcases ho with h0 | hw
    · split
      · exact h0
      · simp [alloc_frame]
    · rw [hw]
      simp [alloc_frame]

/-- If the stored accumulation frame (when present) is within the target
size, so is the frame produced by the guarantee step. -/
theorem ensure_output_nb_le {σ : Type} (r : AudioResampler σ)
    (hout : ∀ o, r.output_frame = some o → o.nb_samples ≤ r.target_frame_samples) :
    (ensure_output r).nb_samples ≤ r.target_frame_samples := by
  cases h : r.output_frame with
  | none => simp [ensure_output, h, alloc_frame]
  | some o =>
    simp only [ensure_output, h]
    split
    · exact hout o h
    · simp [alloc_frame]

/-! ### Helper lemmas about the copy step -/

/-- The copy count never exceeds the space left in the accumulation frame. -/
theorem copy_count_le_required {σ : Type} (r : AudioResampler σ) (t out0 : Frame) :
    copy_count r t out0 ≤ (r.target_frame_samples : Int) - (out0.nb_samples : Int) := by
  simp only [copy_count]
  split_ifs <;> omega

/-- The copy count never exceeds the unread part of the scratch batch. -/
theorem copy_count_le_available {σ : Type} (r : AudioResampler σ) (t out0 : Frame) :
    copy_count r t out0 ≤ (t.nb_samples : Int) - (r.offset : Int) := by
  simp only [copy_count]
  split_ifs <;> omega

/-- The accumulated count after the copy step. -/
theorem do_copy_nb {σ : Type} (r : AudioResampler σ) (t out0 : Frame) :
    (do_copy r t out0).1.nb_samples = out0.nb_samples + (copy_count r t out0).toNat := by
  simp only [do_copy]
  split_ifs <;> simp <;> omega

/-- The read cursor after the copy step. -/
theorem do_copy_snd {σ : Type} (r : AudioResampler σ) (t out0 : Frame) :
    (do_copy r t out0).2 = r.offset + (copy_count r t out0).toNat := by
  simp only [do_copy]
  split_ifs <;> simp <;> omega

/-- The first copy into an empty accumulation frame stamps the PTS of the
first copied sample: the scratch batch PTS plus the read cursor. -/
theorem do_copy_pts_first {σ : Type} (r : AudioResampler σ) (t out0 : Frame)
    (h0 : out0.nb_samples = 0) (hc : 0 < copy_count r t out0) :
    (do_copy r t out0).1.pts = t.pts + (r.offset : Int) := by
  simp only [do_copy]
  rw [if_pos hc, if_pos h0]

/-! ### Auxiliary facts about the fixed-size pull path -/

/-- While flushing, the fixed-size pull always emits. -/
theorem c4_emit_when_flushing {σ : Type} (r : AudioResampler σ) (t : Frame)
    (hfix : r.target_frame_samples ≠ 0) (ht : r.tmp_frame = some t)
    (hfl : r.flush = true) :
    (ffw_audio_resampler_take_frame r).1 = 1 := by
  simp only [ffw_audio_resampler_take_frame, ht, if_neg hfix, take_fixed]
  rw [if_neg (by simp [hfl])]

/-- Outside flushing, an emitted fixed-size frame has exactly the target
size, given that the stored accumulation frame is within the target size. -/
theorem c4_full_when_steady {σ : Type} (r : AudioResampler σ) (t : Frame)
    (hfix : r.target_frame_samples ≠ 0) (ht : r.tmp_frame = some t)
    (hout : ∀ o, r.output_frame = some o → o.nb_samples ≤ r.target_frame_samples)
    (hfl : r.flush = false) :
    ∀ f, (ffw_audio_resampler_take_frame r).2.1 = some f →
      f.nb_samples = r.target_frame_samples := by
  have hle := ensure_output_nb_le r hout
  have hnb := do_copy_nb r t (ensure_output r)
  have hcl := copy_count_le_required r t (ensure_output r)
  simp only [ffw_audio_resampler_take_frame, ht, if_neg hfix, take_fixed]
  by_cases hemit : r.flush = false ∧
      (do_copy r t (ensure_output r)).1.nb_samples < r.target_frame_samples
  · rw [if_pos hemit]
    intro f hf
    cases hf
  · rw [if_neg hemit]
    intro f hf
    injection hf with hf
    subst hf
    rw [hfl] at hemit
    simp only [true_and] at hemit
    omega

/-- Emission resets the stored accumulation count to zero. -/
theorem c4_reset_after_emit {σ : Type} (r : AudioResampler σ) (t : Frame)
    (hfix : r.target_frame_samples ≠ 0) (ht : r.tmp_frame = some t) :
    (ffw_audio_resampler_take_frame r).1 = 1 →
    ∀ o, (ffw_audio_resampler_take_frame r).2.2.output_frame = some o →
      o.nb_samples = 0 := by
  simp only [ffw_audio_resampler_take_frame, ht, if_neg hfix, take_fixed]
  by_cases hemit : r.flush = false ∧
      (do_copy r t (ensure_output r)).1.nb_samples < r.target_frame_samples
  · rw [if_pos hemit]
    intro hret
    dsimp only at hret
    omega
  · rw [if_neg hemit]
    intro _ o ho
    injection ho with ho
    subst ho
    rfl

/-- After an emission, the flush flag survives exactly when the scratch batch
still has unread samples. -/
theorem c4_flush_after_emit {σ : Type} (r : AudioResampler σ) (t : Frame)
    (hfix : r.target_frame_samples ≠ 0) (ht : r.tmp_frame = some t) :
    (ffw_audio_resampler_take_frame r).1 = 1 →
    (ffw_audio_resampler_take_frame r).2.2.flush =
      (r.flush && !decide (t.nb_samples ≤ (ffw_audio_resampler_take_frame r).2.2.offset)) := by
  simp only [ffw_audio_resampler_take_frame, ht, if_neg hfix, take_fixed]
  by_cases hemit : r.flush = false ∧
      (do_copy r t (ensure_output r)).1.nb_samples < r.target_frame_samples
  · rw [if_pos hemit]
    intro hret
    dsimp only at hret
    omega
  · rw [if_neg hemit]
    intro _
    dsimp only
    by_cases hcl : t.nb_samples ≤ (do_copy r t (ensure_output r)).2
    · rw [if_pos hcl]
      simp [hcl]
    · rw [if_neg hcl]
      simp [hcl]

/-! ### Claim theorems -/

/-- C2: pushing the end-of-input sentinel into a resampler whose scratch is
consumed reaches line 193 and evaluates `frame->pts` with `frame == NULL`:
the embedded push yields the undefined-behaviour marker `none` instead of
returning `Consumed`, refuting the claim that the sentinel path is total and
never reads a field of the absent input frame. -/
theorem sentinel_push_dereferences_null :
    ffw_audio_resampler_push_frame testSwr rs0 none = none := by rfl

/-- C1: pushing a frame with unknown PTS marks the scratch batch PTS unknown
and the first re-blocked frame still carries the unknown sentinel, but the
second frame re-blocked from the same batch in fixed-size mode carries the
fabricated numeric timestamp `AV_NOPTS_VALUE + 2` (line 273 adds the read
cursor to the sentinel), refuting the claim that every frame re-blocked from
an unknown-PTS batch has unknown PTS. -/
theorem unknown_pts_fabricated_in_fixed_mode :
    flat4.pts = AV_NOPTS_VALUE ∧
    rs1.tmp_frame.map Frame.pts = some AV_NOPTS_VALUE ∧
    rsPull1.2.1.map Frame.pts = some AV_NOPTS_VALUE ∧
    rsPull2.2.1.map Frame.pts = some (AV_NOPTS_VALUE + 2) ∧
    AV_NOPTS_VALUE + 2 ≠ AV_NOPTS_VALUE :=
  ⟨rfl, by decide, by decide, by decide, by decide⟩

/-- C3: while the scratch batch still has unread samples, any push (frame or
sentinel) returns `NotReady` (0) and leaves the entire resampler state
unchanged. -/
theorem push_rejected_when_unconsumed {σ : Type} (E : SwrApi σ)
    (r : AudioResampler σ) (frame : Option Frame) (t : Frame)
    (ht : r.tmp_frame = some t) (hlt : r.offset < t.nb_samples) :
    ffw_audio_resampler_push_frame E r frame = some (0, r) := by
  simp only [ffw_audio_resampler_push_frame, ht]
  simp [hlt]

/-- Witness for C3 at a concrete state with one unread scratch sample. -/
theorem push_rejected_when_unconsumed_witness :
    ffw_audio_resampler_push_frame testSwr rsBusy (some flat4) = some (0, rsBusy) :=
  push_rejected_when_unconsumed testSwr rsBusy (some flat4) frameA rfl (by decide)

/-- C9: before any successful push (the scratch frame has never been
allocated), pull returns `NotReady` (0), hands out no frame, and leaves the
state unchanged. -/
theorem pull_before_first_push {σ : Type} (r : AudioResampler σ)
    (h : r.tmp_frame = none) :
    ffw_audio_resampler_take_frame r = (0, none, r) := by
  simp only [ffw_audio_resampler_take_frame, h]

/-- A fresh pass-through resampler for the C9 witness. -/
def rs9 : AudioResampler Unit := ffw_audio_resampler_new () 3 1 48000 0 44100

/-- Witness for C9 at a freshly constructed resampler. -/
theorem pull_before_first_push_witness :
    ffw_audio_resampler_take_frame rs9 = (0, none, rs9) :=
  pull_before_first_push rs9 rfl

/-- C10: in fixed-size mode with the flush flag set, an empty accumulation
buffer and a fully consumed scratch batch, pull emits a zero-sample frame
(return code 1, not `NotReady`) and clears the flush flag. -/
theorem flush_empty_pull_emits_zero_frame {σ : Type} (r : AudioResampler σ)
    (t : Frame)
    (hfix : r.target_frame_samples ≠ 0) (ht : r.tmp_frame = some t)
    (hoff : t.nb_samples ≤ r.offset) (hflush : r.flush = true)
    (hout : r.output_frame = none ∨
      ∃ o, r.output_frame = some o ∧ o.nb_samples = 0) :
    (ffw_audio_resampler_take_frame r).1 = 1 ∧
    (∃ f, (ffw_audio_resampler_take_frame r).2.1 = some f ∧ f.nb_samples = 0) ∧
    (ffw_audio_resampler_take_frame r).2.2.flush = false := by
  have h0 : (ensure_output r).nb_samples = 0 := by
    refine ensure_output_nb_eq_zero r ?_
    rcases hout with h | ⟨o, h, h2⟩
    · exact Or.inl h
    · exact Or.inr ⟨o, h, Or.inl h2⟩
  have hcc : copy_count r t (ensure_output r) ≤ 0 :=
    le_trans (copy_count_le_available r t (ensure_output r)) (by omega)
  have hnb : (do_copy r t (ensure_output r)).1.nb_samples = 0 := by
    rw [do_copy_nb, h0, Int.toNat_of_nonpos hcc]
  have hoff2 : (do_copy r t (ensure_output r)).2 = r.offset := by
    rw [do_copy_snd, Int.toNat_of_nonpos hcc]
    exact Nat.add_zero r.offset
  simp only [ffw_audio_resampler_take_frame, ht, if_neg hfix, take_fixed]
  rw [if_neg (by simp [hflush])]
  refine ⟨rfl, ⟨_, rfl, hnb⟩, ?_⟩
  dsimp only
  rw [hoff2, if_pos hoff]

/-- Witness for C10 at a concrete flushed-out state. -/
theorem flush_empty_pull_emits_zero_frame_witness :
    (ffw_audio_resampler_take_frame rsFlushed).1 = 1 ∧
    (∃ f, (ffw_audio_resampler_take_frame rsFlushed).2.1 = some f ∧
      f.nb_samples = 0) ∧
    (ffw_audio_resampler_take_frame rsFlushed).2.2.flush = false :=
  flush_empty_pull_emits_zero_frame rsFlushed frameC (by decide) rfl (by decide)
    rfl (Or.inl rfl)

/-- C6: in fixed-size mode, a pull whose copy is the first into an empty
accumulation buffer stamps the accumulation PTS with the scratch batch PTS
plus the read cursor at the moment of the copy, both on the frame it may
emit and on the stored accumulation frame. -/
theorem first_copy_sets_offset_pts {σ : Type} (r : AudioResampler σ) (t : Frame)
    (hfix : r.target_frame_samples ≠ 0) (ht : r.tmp_frame = some t)
    (hoff : r.offset < t.nb_samples)
    (hout : r.output_frame = none ∨
      ∃ o, r.output_frame = some o ∧ (o.nb_samples = 0 ∨ o.writable = false)) :
    (∀ f, (ffw_audio_resampler_take_frame r).2.1 = some f →
      f.pts = t.pts + (r.offset : Int)) ∧
    (∃ o, (ffw_audio_resampler_take_frame r).2.2.output_frame = some o ∧
      o.pts = t.pts + (r.offset : Int)) := by
  have h0 := ensure_output_nb_eq_zero r hout
  have hcpos : 0 < copy_count r t (ensure_output r) := by
    simp only [copy_count, h0]
    split_ifs <;> omega
  have hpts := do_copy_pts_first r t (ensure_output r) h0 hcpos
  simp only [ffw_audio_resampler_take_frame, ht, if_neg hfix, take_fixed]
  by_cases hemit : r.flush = false ∧
      (do_copy r t (ensure_output r)).1.nb_samples < r.target_frame_samples
  · rw [if_pos hemit]
    refine ⟨fun f hf => ?_, ⟨_, rfl, hpts⟩⟩
    simp at hf
  · rw [if_neg hemit]
    refine ⟨fun f hf => ?_, ⟨_, rfl, hpts⟩⟩
    injection hf with hf
    subst hf
    exact hpts

/-- Witness for C6 at a concrete partially drained state. -/
theorem first_copy_sets_offset_pts_witness :
    (∀ f, (ffw_audio_resampler_take_frame rsMid).2.1 = some f →
      f.pts = frameC.pts + ((rsMid.offset : Nat) : Int)) ∧
    (∃ o, (ffw_audio_resampler_take_frame rsMid).2.2.output_frame = some o ∧
      o.pts = frameC.pts + ((rsMid.offset : Nat) : Int)) :=
  first_copy_sets_offset_pts rsMid frameC (by decide) rfl (by decide) (Or.inl rfl)

/-- C4: in fixed-size mode (with the stored accumulation frame within the
target size), pull emits only once the accumulated count reaches the target
size unless the flush flag is set, in which case it always emits; emission
resets the stored accumulation count to zero and clears the flush flag
exactly when the scratch read cursor has reached the scratch sample count. -/
theorem fixed_pull_emission_contract {σ : Type} (r : AudioResampler σ) (t : Frame)
    (hfix : r.target_frame_samples ≠ 0) (ht : r.tmp_frame = some t)
    (hout : ∀ o, r.output_frame = some o → o.nb_samples ≤ r.target_frame_samples) :
    (r.flush = true → (ffw_audio_resampler_take_frame r).1 = 1) ∧
    (r.flush = false → ∀ f, (ffw_audio_resampler_take_frame r).2.1 = some f →
      f.nb_samples = r.target_frame_samples) ∧
    ((ffw_audio_resampler_take_frame r).1 = 1 →
      ∀ o, (ffw_audio_resampler_take_frame r).2.2.output_frame = some o →
        o.nb_samples = 0) ∧
    ((ffw_audio_resampler_take_frame r).1 = 1 →
      (ffw_audio_resampler_take_frame r).2.2.flush =
        (r.flush && !decide (t.nb_samples ≤ (ffw_audio_resampler_take_frame r).2.2.offset))) :=
  ⟨fun hfl => c4_emit_when_flushing r t hfix ht hfl,
   fun hfl => c4_full_when_steady r t hfix ht hout hfl,
   c4_reset_after_emit r t hfix ht,
   c4_flush_after_emit r t hfix ht⟩

/-- Witness for C4 at a concrete flushing state with a partially read
scratch batch. -/
theorem fixed_pull_emission_contract_witness :
    (rsFlushing.flush = true → (ffw_audio_resampler_take_frame rsFlushing).1 = 1) ∧
    (rsFlushing.flush = false →
      ∀ f, (ffw_audio_resampler_take_frame rsFlushing).2.1 = some f →
        f.nb_samples = rsFlushing.target_frame_samples) ∧
    ((ffw_audio_resampler_take_frame rsFlushing).1 = 1 →
      ∀ o, (ffw_audio_resampler_take_frame rsFlushing).2.2.output_frame = some o →
        o.nb_samples = 0) ∧
    ((ffw_audio_resampler_take_frame rsFlushing).1 = 1 →
      (ffw_audio_resampler_take_frame rsFlushing).2.2.flush =
        (rsFlushing.flush &&
          !decide (frameC.nb_samples ≤ (ffw_audio_resampler_take_frame rsFlushing).2.2.offset))) :=
  fixed_pull_emission_contract rsFlushing frameC (by decide) rfl
    (fun o h => nomatch h)

/-! ### The rescale utility (claim C8) -/

/-- `wrap64` is the identity on non-negative values below `2^63`. -/
theorem wrap64_eq_self (x : Int) (hlo : 0 ≤ x) (hhi : x < 2 ^ 63) :
    wrap64 x = x := by
  unfold wrap64
  rw [Int.emod_eq_of_lt (by omega) (by omega)]
  omega

/-- C8 counterexample: with all four time-base components 3037000500 (a legal
32-bit value) the two cross products overflow `int64_t`, so `ffw_rescale_rnd`
returns `INT64_MIN` where the claimed exact cross-multiplication
`n * (from_num * to_den) / (to_num * from_den)` (ratio 1, rounding toward
zero) gives 5. -/
theorem rescale_cross_mul_overflows :
    ffw_rescale_rnd 5 3037000500 3037000500 3037000500 3037000500 0 ≠
      avRoundDiv (5 * ((3037000500 : Int) * 3037000500))
        ((3037000500 : Int) * 3037000500) 0 := by decide

/-- C8 (amended): whenever the two cross products themselves fit in
`int64_t`, `ffw_rescale_rnd` hands them to the rescale primitive exactly, and
(for a positive divisor, a plain valid rounding mode and a representable
result) returns `n * (from_num * to_den) / (to_num * from_den)` rounded per
the requested mode. -/
theorem rescale_exact_when_cross_fits (n : Int)
    (aq_num aq_den bq_num bq_den rnd : Nat)
    (ha : (aq_num : Int) * (bq_den : Int) < 2 ^ 63)
    (hb : (bq_num : Int) * (aq_den : Int) < 2 ^ 63)
    (hc : 0 < (bq_num : Int) * (aq_den : Int))
    (hr5 : rnd ≤ 5) (hr4 : rnd ≠ 4)
    (hlo : INT64_MIN ≤ avRoundDiv (n * ((aq_num : Int) * (bq_den : Int)))
      ((bq_num : Int) * (aq_den : Int)) rnd)
    (hhi : avRoundDiv (n * ((aq_num : Int) * (bq_den : Int)))
      ((bq_num : Int) * (aq_den : Int)) rnd ≤ INT64_MAX) :
    ffw_rescale_rnd n aq_num aq_den bq_num bq_den rnd =
      avRoundDiv (n * ((aq_num : Int) * (bq_den : Int)))
        ((bq_num : Int) * (aq_den : Int)) rnd := by
  have hwa : wrap64 ((aq_num : Int) * (bq_den : Int)) = (aq_num : Int) * (bq_den : Int) :=
    wrap64_eq_self _ (mul_nonneg (Int.natCast_nonneg _) (Int.natCast_nonneg _)) ha
  have hwb : wrap64 ((bq_num : Int) * (aq_den : Int)) = (bq_num : Int) * (aq_den : Int) :=
    wrap64_eq_self _ (mul_nonneg (Int.natCast_nonneg _) (Int.natCast_nonneg _)) hb
  have hbit : Nat.testBit rnd 13 = false :=
    Nat.testBit_eq_false_of_lt (lt_of_le_of_lt hr5 (by norm_num))
  simp only [ffw_rescale_rnd, hwa, hwb, av_rescale_rnd, hbit, Bool.false_eq_true,
    if_false, false_and]
  rw [if_neg (by
    push_neg
    exact ⟨hc, mul_nonneg (Int.natCast_nonneg _) (Int.natCast_nonneg _), hr5, hr4⟩)]
  rw [if_neg (by push_neg; exact ⟨hlo, hhi⟩)]

/-- Witness for the amended C8 at a concrete input:
`7 * (3 * 4) / (5 * 2)` rounded down is 8. -/
theorem rescale_exact_when_cross_fits_witness :
    ffw_rescale_rnd 7 3 2 5 4 2 =
      avRoundDiv (7 * ((3 : Int) * 4)) ((5 : Int) * 2) 2 :=
  rescale_exact_when_cross_fits 7 3 2 5 4 2 (by norm_num) (by norm_num)
    (by norm_num) (by norm_num) (by norm_num) (by decide) (by decide)

/-! ### The read-cursor invariant (claim C7) -/

/-- The cursor invariant: in pass-through mode the read cursor is never
moved, and whenever the scratch batch exists the cursor is within its sample
count. -/
def InvCursor {σ : Type} (r : AudioResampler σ) : Prop :=
  (r.target_frame_samples = 0 → r.offset = 0) ∧
  (∀ t, r.tmp_frame = some t → r.offset ≤ t.nb_samples)

/-- Every state produced by the conversion tail of push has cursor zero and a
scratch batch whose count dominates it. -/
theorem push_convert_cursor {σ : Type} (E : SwrApi σ) (r1 : AudioResampler σ)
    (frame : Option Frame) (cap : Int) (p : Int × AudioResampler σ)
    (hp : push_convert E r1 frame cap = some p) :
    p.2.offset = 0 ∧ ∀ t, p.2.tmp_frame = some t → p.2.offset ≤ t.nb_samples := by
  simp only [push_convert] at hp
  split at hp
  · -- conversion error: scratch count was just reset to zero
    injection hp with hp
    subst hp
    exact ⟨rfl, by intro t h; injection h with h; subst h; exact Nat.zero_le _⟩
  · split at hp
    · cases hp
    · split at hp <;>
      · injection hp with hp
        subst hp
        exact ⟨rfl, by intro t h; injection h with h; subst h; exact Nat.zero_le _⟩

/-- Push preserves the cursor invariant. -/
theorem invCursor_push {σ : Type} (E : SwrApi σ) (r : AudioResampler σ)
    (frame : Option Frame) (p : Int × AudioResampler σ)
    (hr : InvCursor r) (hp : ffw_audio_resampler_push_frame E r frame = some p) :
    InvCursor p.2 := by
  simp only [ffw_audio_resampler_push_frame] at hp
  split at hp
  · injection hp with hp
    subst hp
    exact hr
  · split at hp
    · -- negative capacity estimate: only the flush flag may have changed
      cases frame <;>
      · injection hp with hp
        subst hp
        exact hr
    · have h := push_convert_cursor E _ frame _ p hp
      exact ⟨fun _ => h.1, h.2⟩

/-- Pull preserves the cursor invariant. -/
theorem invCursor_take {σ : Type} (r : AudioResampler σ) (hr : InvCursor r) :
    InvCursor (ffw_audio_resampler_take_frame r).2.2 := by
  rcases hr with ⟨h0, hle⟩
  cases ht : r.tmp_frame with
  | none => simpa [ffw_audio_resampler_take_frame, ht] using ⟨h0, hle⟩
  | some t =>
    by_cases hfix : r.target_frame_samples = 0
    · have hoff : r.offset = 0 := h0 hfix
      simp only [ffw_audio_resampler_take_frame, ht, if_pos hfix, take_passthrough]
      split_ifs
      · refine ⟨fun _ => hoff, fun u hu => ?_⟩
        have hu' : some { t with nb_samples := 0, writable := false } = some u := hu
        injection hu' with hu'
        subst hu'
        simp [hoff]
      · refine ⟨fun _ => hoff, fun u hu => ?_⟩
        have hu' : some t = some u := hu
        injection hu' with hu'
        subst hu'
        exact hle t ht
    · have hsnd := do_copy_snd r t (ensure_output r)
      have hcav := copy_count_le_available r t (ensure_output r)
      have hlt : (do_copy r t (ensure_output r)).2 ≤ t.nb_samples := by
        have := hle t ht
        omega
      simp only [ffw_audio_resampler_take_frame, ht, if_neg hfix, take_fixed]
      split_ifs <;>
        refine ⟨fun h => absurd h hfix, fun u hu => ?_⟩ <;>
        · have hu' : some t = some u := hu
          injection hu' with hu'
          subst hu'
          exact hlt

/-- C7: in every reachable state, whenever the scratch batch exists, its read
cursor is at most its sample count. -/
theorem read_cursor_le_sample_count {σ : Type} (E : SwrApi σ)
    (r : AudioResampler σ) (h : Reachable E r) (t : Frame)
    (ht : r.tmp_frame = some t) : r.offset ≤ t.nb_samples := by
  suffices hinv : InvCursor r from hinv.2 t ht
  clear ht t
  induction h with
  | init ctx tcl tsf tsr tfs ssr =>
    exact ⟨fun _ => rfl, by intro t h; cases h⟩
  | push r f ret r' _ hp ih => exact invCursor_push E r f (ret, r') ih hp
  | pull r _ ih => exact invCursor_take r ih

/-- The scratch batch stored in `rs1`. -/
def rs1tmp : Frame :=
  { nb_samples := 4
    pts := AV_NOPTS_VALUE
    data := [10, 20, 30, 40]
    channel_layout := 3
    format := 1
    sample_rate := 48000
    writable := true }

/-- Witness for C7 at the concrete reachable state `rs1`. -/
theorem read_cursor_le_sample_count_witness : rs1.offset ≤ rs1tmp.nb_samples :=
  read_cursor_le_sample_count testSwr rs1
    (Reachable.push rs0 (some flat4) 1 rs1 (Reachable.init () 3 1 48000 2 48000)
      (by rfl))
    rs1tmp (by rfl)

/-! ### Trace-level machinery for the fixed-size frame invariant (claim C5) -/

/-- Steady-state invariant of fixed-size operation: not flushing, the stored
accumulation frame (when present) strictly below the target size, the read
cursor within the scratch batch, positive configured frame size. -/
def Inv1 {σ : Type} (r : AudioResampler σ) : Prop :=
  r.flush = false ∧
  0 < r.target_frame_samples ∧
  (∀ o, r.output_frame = some o → o.nb_samples < r.target_frame_samples) ∧
  (∀ t, r.tmp_frame = some t → r.offset ≤ t.nb_samples)

/-- State right after an end-of-input push that set the flush flag but could
not complete: flushing, scratch batch (when present) fully consumed,
accumulation frame below the target size. -/
def FlushReady {σ : Type} (r : AudioResampler σ) : Prop :=
  r.flush = true ∧
  0 < r.target_frame_samples ∧
  (∀ o, r.output_frame = some o → o.nb_samples < r.target_frame_samples) ∧
  (∀ t, r.tmp_frame = some t → t.nb_samples ≤ r.offset)

/-- Terminal state: not flushing and the scratch batch (when present) fully
consumed, so no further pull can emit. -/
def Dead {σ : Type} (r : AudioResampler σ) : Prop :=
  r.flush = false ∧
  0 < r.target_frame_samples ∧
  (∀ o, r.output_frame = some o → o.nb_samples < r.target_frame_samples) ∧
  (∀ t, r.tmp_frame = some t → t.nb_samples ≤ r.offset)

/-- If the stored accumulation frame (when present) is strictly below the
positive target size, so is the frame produced by the guarantee step. -/
theorem ensure_output_nb_lt {σ : Type} (r : AudioResampler σ)
    (htgt : 0 < r.target_frame_samples)
    (hout : ∀ o, r.output_frame = some o → o.nb_samples < r.target_frame_samples) :
    (ensure_output r).nb_samples < r.target_frame_samples := by
  cases h : r.output_frame with
  | none => simpa [ensure_output, h, alloc_frame] using htgt
  | some o =>
    simp only [ensure_output, h]
    split
    · exact hout o h
    · simpa [alloc_frame] using htgt

/-- The conversion tail of push does not touch the flush flag, the
accumulation frame or the configured frame size. -/
theorem push_convert_fields {σ : Type} (E : SwrApi σ) (r1 : AudioResampler σ)
    (frame : Option Frame) (cap : Int) (p : Int × AudioResampler σ)
    (hp : push_convert E r1 frame cap = some p) :
    p.2.flush = r1.flush ∧ p.2.output_frame = r1.output_frame ∧
    p.2.target_frame_samples = r1.target_frame_samples := by
  simp only [push_convert] at hp
  split at hp
  · injection hp with hp
    subst hp
    exact ⟨rfl, rfl, rfl⟩
  · split at hp
    · cases hp
    · split at hp <;>
      · injection hp with hp
        subst hp
        exact ⟨rfl, rfl, rfl⟩

/-- After the sentinel push fails to complete, the scratch batch it leaves
behind (when present) is fully consumed. -/
theorem push_convert_none_consumed {σ : Type} (E : SwrApi σ)
    (r1 : AudioResampler σ) (cap : Int) (p : Int × AudioResampler σ)
    (hp : push_convert E r1 none cap = some p) :
    ∀ t, p.2.tmp_frame = some t → t.nb_samples ≤ p.2.offset := by
  simp only [push_convert] at hp
  split at hp
  · injection hp with hp
    subst hp
    intro t h
    injection h with h
    subst h
    exact Nat.zero_le _
  · cases hp

/-- Push never changes the configured frame size. -/
theorem push_target {σ : Type} (E : SwrApi σ) (r : AudioResampler σ)
    (frame : Option Frame) (p : Int × AudioResampler σ)
    (hp : ffw_audio_resampler_push_frame E r frame = some p) :
    p.2.target_frame_samples = r.target_frame_samples := by
  simp only [ffw_audio_resampler_push_frame] at hp
  split at hp
  · injection hp with hp
    subst hp
    rfl
  · split at hp
    · cases frame <;>
      · injection hp with hp
        subst hp
        rfl
    · cases frame with
      | some f => exact (push_convert_fields E r (some f) _ p hp).2.2
      | none =>
        exact (push_convert_fields E { r with flush := true } none _ p hp).2.2

/-- Pull never changes the configured frame size. -/
theorem take_target {σ : Type} (r : AudioResampler σ) :
    (ffw_audio_resampler_take_frame r).2.2.target_frame_samples =
      r.target_frame_samples := by
  cases ht : r.tmp_frame with
  | none => simp [ffw_audio_resampler_take_frame, ht]
  | some t =>
    simp only [ffw_audio_resampler_take_frame, ht, take_passthrough, take_fixed]
    split_ifs <;> rfl

/-- When the reject guard of push is false, the scratch batch (when present)
is fully consumed. -/
theorem consumed_of_guard {σ : Type} (r : AudioResampler σ)
    (h : ¬((match r.tmp_frame with
        | some t => decide (r.offset < t.nb_samples)
        | none => false) = true)) :
    ∀ t, r.tmp_frame = some t → t.nb_samples ≤ r.offset := by
  intro t ht
  rw [ht] at h
  simp only [decide_eq_true_eq] at h
  omega

/-- Pushing a real frame preserves the steady-state invariant. -/
theorem push_some_inv1 {σ : Type} (E : SwrApi σ) (r : AudioResampler σ)
    (f : Frame) (p : Int × AudioResampler σ)
    (hinv : Inv1 r) (hp : ffw_audio_resampler_push_frame E r (some f) = some p) :
    Inv1 p.2 := by
  rcases hinv with ⟨hfl, htgt, hout, hcur⟩
  simp only [ffw_audio_resampler_push_frame] at hp
  split at hp
  · injection hp with hp
    subst hp
    exact ⟨hfl, htgt, hout, hcur⟩
  · split at hp
    · injection hp with hp
      subst hp
      exact ⟨hfl, htgt, hout, hcur⟩
    · rcases push_convert_fields E r (some f) _ p hp with ⟨h1, h2, h3⟩
      rcases push_convert_cursor E r (some f) _ p hp with ⟨h4, h5⟩
      refine ⟨h1.trans hfl, ?_, ?_, h5⟩
      · rw [h3]
        exact htgt
      · intro o ho
        rw [h3]
        exact hout o (h2 ▸ ho)

/-- Pushing the end-of-input sentinel from a steady state leaves either a
steady state (when rejected) or a flush-ready state (when it set the flag and
then failed); a completed sentinel push is impossible (it crashes). -/
theorem pushEnd_inv1 {σ : Type} (E : SwrApi σ) (r : AudioResampler σ)
    (p : Int × AudioResampler σ)
    (hinv : Inv1 r) (hp : ffw_audio_resampler_push_frame E r none = some p) :
    Inv1 p.2 ∨ FlushReady p.2 := by
  rcases hinv with ⟨hfl, htgt, hout, hcur⟩
  simp only [ffw_audio_resampler_push_frame] at hp
  split at hp
  · injection hp with hp
    subst hp
    exact Or.inl ⟨hfl, htgt, hout, hcur⟩
  case isFalse hguard =>
    have hcons := consumed_of_guard r hguard
    split at hp
    · injection hp with hp
      subst hp
      exact Or.inr ⟨rfl, htgt, hout, hcons⟩
    · rcases push_convert_fields E _ none _ p hp with ⟨h1, h2, h3⟩
      rcases push_convert_none_consumed E _ _ p hp with hc
      refine Or.inr ⟨h1, ?_, ?_, hc⟩
      · rw [h3]
        exact htgt
      · intro o ho
        rw [h3]
        exact hout o (h2 ▸ ho)

/-- In a steady state, pull preserves the invariant and only emits frames of
exactly the target size. -/
theorem take_inv1 {σ : Type} (r : AudioResampler σ) (hinv : Inv1 r) :
    Inv1 (ffw_audio_resampler_take_frame r).2.2 ∧
    (∀ f, (ffw_audio_resampler_take_frame r).2.1 = some f →
      f.nb_samples = r.target_frame_samples) := by
  rcases hinv with ⟨hfl, htgt, hout, hcur⟩
  cases ht : r.tmp_frame with
  | none =>
    simp only [ffw_audio_resampler_take_frame, ht]
    exact ⟨⟨hfl, htgt, hout, hcur⟩, fun f hf => Option.noConfusion hf⟩
  | some t =>
    have hfix : r.target_frame_samples ≠ 0 := by omega
    have hnb := do_copy_nb r t (ensure_output r)
    have hreq := copy_count_le_required r t (ensure_output r)
    have hcav := copy_count_le_available r t (ensure_output r)
    have hlt := ensure_output_nb_lt r htgt hout
    have hct := hcur t ht
    have hsnb : (do_copy r t (ensure_output r)).1.nb_samples ≤ r.target_frame_samples := by
      omega
    have hscur : (do_copy r t (ensure_output r)).2 ≤ t.nb_samples := by
      rw [do_copy_snd]
      omega
    simp only [ffw_audio_resampler_take_frame, ht, if_neg hfix, take_fixed]
    by_cases hemit : r.flush = false ∧
        (do_copy r t (ensure_output r)).1.nb_samples < r.target_frame_samples
    · rw [if_pos hemit]
      refine ⟨⟨hfl, htgt, ?_, ?_⟩, fun f hf => Option.noConfusion hf⟩
      · intro o ho
        have ho' : some (do_copy r t (ensure_output r)).1 = some o := ho
        injection ho' with ho'
        subst ho'
        exact hemit.2
      · intro u hu
        have hu' : some t = some u := hu
        injection hu' with hu'
        subst hu'
        exact hscur
    · rw [if_neg hemit]
      have hfull : (do_copy r t (ensure_output r)).1.nb_samples =
          r.target_frame_samples := by
        simp only [hfl, true_and] at hemit
        omega
      refine ⟨⟨?_, htgt, ?_, ?_⟩, fun f hf => ?_⟩
      · dsimp only
        split_ifs
        · rfl
        · exact hfl
      · intro o ho
        have ho' : some { (do_copy r t (ensure_output r)).1 with
            nb_samples := 0, writable := false } = some o := ho
        injection ho' with ho'
        subst ho'
        exact htgt
      · intro u hu
        have hu' : some t = some u := hu
        injection hu' with hu'
        subst hu'
        exact hscur
      · have hf' : some (do_copy r t (ensure_output r)).1 = some f := hf
        injection hf' with hf'
        subst hf'
        exact hfull

/-- From a flush-ready state, pull either changes nothing relevant (no
scratch batch) or performs the final emission and lands in a terminal
state. -/
theorem take_flushReady {σ : Type} (r : AudioResampler σ) (hf : FlushReady r) :
    (FlushReady (ffw_audio_resampler_take_frame r).2.2 ∧
      (ffw_audio_resampler_take_frame r).2.1 = none) ∨
    Dead (ffw_audio_resampler_take_frame r).2.2 := by
  rcases hf with ⟨hfl, htgt, hout, hcons⟩
  cases ht : r.tmp_frame with
  | none =>
    simp only [ffw_audio_resampler_take_frame, ht]
    exact Or.inl ⟨⟨hfl, htgt, hout, hcons⟩, trivial⟩
  | some t =>
    have hfix : r.target_frame_samples ≠ 0 := by omega
    have hct := hcons t ht
    have hcav := copy_count_le_available r t (ensure_output r)
    have hcc0 : copy_count r t (ensure_output r) ≤ 0 := by omega
    have hs2 : (do_copy r t (ensure_output r)).2 = r.offset := by
      rw [do_copy_snd, Int.toNat_of_nonpos hcc0]
      exact Nat.add_zero _
    simp only [ffw_audio_resampler_take_frame, ht, if_neg hfix, take_fixed]
    rw [if_neg (by simp [hfl])]
    refine Or.inr ⟨?_, htgt, ?_, ?_⟩
    · dsimp only
      rw [hs2, if_pos hct]
    · intro o ho
      have ho' : some { (do_copy r t (ensure_output r)).1 with
          nb_samples := 0, writable := false } = some o := ho
      injection ho' with ho'
      subst ho'
      exact htgt
    · intro u hu
      have hu' : some t = some u := hu
      injection hu' with hu'
      subst hu'
      exact hs2.symm ▸ hct

/-- A terminal state stays terminal and emits nothing. -/
theorem take_dead {σ : Type} (r : AudioResampler σ) (hd : Dead r) :
    (ffw_audio_resampler_take_frame r).2.1 = none ∧
    Dead (ffw_audio_resampler_take_frame r).2.2 := by
  rcases hd with ⟨hfl, htgt, hout, hcons⟩
  cases ht : r.tmp_frame with
  | none =>
    simp only [ffw_audio_resampler_take_frame, ht]
    exact ⟨trivial, hfl, htgt, hout, hcons⟩
  | some t =>
    have hfix : r.target_frame_samples ≠ 0 := by omega
    have hct := hcons t ht
    have hcav := copy_count_le_available r t (ensure_output r)
    have hcc0 : copy_count r t (ensure_output r) ≤ 0 := by omega
    have hs2 : (do_copy r t (ensure_output r)).2 = r.offset := by
      rw [do_copy_snd, Int.toNat_of_nonpos hcc0]
      exact Nat.add_zero _
    have hnb0 : (do_copy r t (ensure_output r)).1.nb_samples =
        (ensure_output r).nb_samples := by
      rw [do_copy_nb, Int.toNat_of_nonpos hcc0]
      exact Nat.add_zero _
    have hlt := ensure_output_nb_lt r htgt hout
    have hemit : r.flush = false ∧
        (do_copy r t (ensure_output r)).1.nb_samples < r.target_frame_samples :=
      ⟨hfl, by rw [hnb0]; exact hlt⟩
    simp only [ffw_audio_resampler_take_frame, ht, if_neg hfix, take_fixed]
    rw [if_pos hemit]
    refine ⟨rfl, hfl, htgt, ?_, ?_⟩
    · intro o ho
      have ho' : some (do_copy r t (ensure_output r)).1 = some o := ho
      injection ho' with ho'
      subst ho'
      rw [hnb0]
      exact hlt
    · intro u hu
      have hu' : some t = some u := hu
      injection hu' with hu'
      subst hu'
      exact hs2.symm ▸ hct

/-- Splitting a run at an intermediate state that survived. -/
theorem runOps_append_some {σ : Type} (E : SwrApi σ) (l1 : List Op) :
    ∀ (r s : AudioResampler σ) (l2 : List Op), (runOps E r l1).1 = some s →
      runOps E r (l1 ++ l2) =
        ((runOps E s l2).1, (runOps E r l1).2 ++ (runOps E s l2).2) := by
  induction l1 with
  | nil =>
    intro r s l2 h
    injection h with h
    subst h
    rfl
  | cons op rest ih =>
    intro r s l2 h
    cases op with
    | push f =>
      cases hp : ffw_audio_resampler_push_frame E r (some f) with
      | none =>
        simp only [runOps, hp] at h
        cases h
      | some p =>
        simp only [runOps, hp] at h
        simp only [List.cons_append, runOps, hp]
        exact ih p.2 s l2 h
    | pushEnd =>
      cases hp : ffw_audio_resampler_push_frame E r none with
      | none =>
        simp only [runOps, hp] at h
        cases h
      | some p =>
        simp only [runOps, hp] at h
        simp only [List.cons_append, runOps, hp]
        exact ih p.2 s l2 h
    | pull =>
      cases hq : (ffw_audio_resampler_take_frame r).2.1 with
      | some g =>
        simp only [runOps, hq] at h
        simp only [List.cons_append, runOps, hq, List.append_eq]
        rw [ih (ffw_audio_resampler_take_frame r).2.2 s l2 h]
      | none =>
        simp only [runOps, hq] at h
        simp only [List.cons_append, runOps, hq]
        exact ih (ffw_audio_resampler_take_frame r).2.2 s l2 h

/-- Splitting a run that aborted inside its first part. -/
theorem runOps_append_none {σ : Type} (E : SwrApi σ) (l1 : List Op) :
    ∀ (r : AudioResampler σ) (l2 : List Op), (runOps E r l1).1 = none →
      runOps E r (l1 ++ l2) = (none, (runOps E r l1).2) := by
  induction l1 with
  | nil =>
    intro r l2 h
    cases h
  | cons op rest ih =>
    intro r l2 h
    cases op with
    | push f =>
      cases hp : ffw_audio_resampler_push_frame E r (some f) with
      | none => simp only [List.cons_append, runOps, hp]
      | some p =>
        simp only [runOps, hp] at h
        simp only [List.cons_append, runOps, hp]
        exact ih p.2 l2 h
    | pushEnd =>
      cases hp : ffw_audio_resampler_push_frame E r none with
      | none => simp only [List.cons_append, runOps, hp]
      | some p =>
        simp only [runOps, hp] at h
        simp only [List.cons_append, runOps, hp]
        exact ih p.2 l2 h
    | pull =>
      cases hq : (ffw_audio_resampler_take_frame r).2.1 with
      | some g =>
        simp only [runOps, hq] at h
        simp only [List.cons_append, runOps, hq, List.append_eq]
        rw [ih (ffw_audio_resampler_take_frame r).2.2 l2 h]
      | none =>
        simp only [runOps, hq] at h
        simp only [List.cons_append, runOps, hq]
        exact ih (ffw_audio_resampler_take_frame r).2.2 l2 h

/-- Running any sequence without the end-of-input sentinel from a steady
state emits only frames of exactly the target size and lands (when it does
not abort) in a steady state with the same configured frame size. -/
theorem run_steady {σ : Type} (E : SwrApi σ) (ops : List Op) :
    ∀ r : AudioResampler σ, Inv1 r → (∀ op ∈ ops, op ≠ Op.pushEnd) →
      (∀ f ∈ (runOps E r ops).2, f.nb_samples = r.target_frame_samples) ∧
      (∀ s, (runOps E r ops).1 = some s →
        Inv1 s ∧ s.target_frame_samples = r.target_frame_samples) := by
  induction ops with
  | nil =>
    intro r hinv _
    refine ⟨?_, fun s hs => ?_⟩
    · intro f hf
      cases hf
    · injection hs with hs
      subst hs
      exact ⟨hinv, rfl⟩
  | cons op rest ih =>
    intro r hinv hops
    have hops' : ∀ op ∈ rest, op ≠ Op.pushEnd :=
      fun o ho => hops o (List.mem_cons_of_mem _ ho)
    cases op with
    | pushEnd => exact absurd rfl (hops Op.pushEnd (List.mem_cons_self _ _))
    | push f =>
      cases hp : ffw_audio_resampler_push_frame E r (some f) with
      | none =>
        have hrw : runOps E r (Op.push f :: rest) = (none, []) := by
          simp [runOps, hp]
        rw [hrw]
        refine ⟨?_, fun s hs => by cases hs⟩
        intro g hg
        cases hg
      | some p =>
        have hi := push_some_inv1 E r f p hinv hp
        have htg := push_target E r (some f) p hp
        have hrw : runOps E r (Op.push f :: rest) = runOps E p.2 rest := by
          simp [runOps, hp]
        rw [hrw]
        rcases ih p.2 hi hops' with ⟨h1, h2⟩
        refine ⟨fun g hg => (h1 g hg).trans htg, fun s hs => ?_⟩
        rcases h2 s hs with ⟨hs1, hs2⟩
        exact ⟨hs1, hs2.trans htg⟩
    | pull =>
      rcases take_inv1 r hinv with ⟨hi, hfr⟩
      have htg := take_target r
      cases hq : (ffw_audio_resampler_take_frame r).2.1 with
      | some g =>
        have hrw : runOps E r (Op.pull :: rest) =
            ((runOps E (ffw_audio_resampler_take_frame r).2.2 rest).1,
              g :: (runOps E (ffw_audio_resampler_take_frame r).2.2 rest).2) := by
          simp [runOps, hq]
        rw [hrw]
        rcases ih (ffw_audio_resampler_take_frame r).2.2 hi hops' with ⟨h1, h2⟩
        refine ⟨?_, fun s hs => ?_⟩
        · intro x hx
          rcases List.mem_cons.mp hx with hx | hx
          · subst hx
            exact hfr x hq
          · exact (h1 x hx).trans htg
        · rcases h2 s hs with ⟨hs1, hs2⟩
          exact ⟨hs1, hs2.trans htg⟩
      | none =>
        have hrw : runOps E r (Op.pull :: rest) =
            runOps E (ffw_audio_resampler_take_frame r).2.2 rest := by
          simp [runOps, hq]
        rw [hrw]
        rcases ih (ffw_audio_resampler_take_frame r).2.2 hi hops' with ⟨h1, h2⟩
        refine ⟨fun x hx => (h1 x hx).trans htg, fun s hs => ?_⟩
        rcases h2 s hs with ⟨hs1, hs2⟩
        exact ⟨hs1, hs2.trans htg⟩

/-- Pulling from a terminal state emits nothing, however often. -/
theorem run_dead {σ : Type} (E : SwrApi σ) (ops : List Op) :
    ∀ r : AudioResampler σ, Dead r → (∀ op ∈ ops, op = Op.pull) →
      (runOps E r ops).2 = [] := by
  induction ops with
  | nil =>
    intro r _ _
    rfl
  | cons op rest ih =>
    intro r hd hops
    have hop : op = Op.pull := hops op (List.mem_cons_self _ _)
    subst hop
    rcases take_dead r hd with ⟨hq, hd'⟩
    have hrw : runOps E r (Op.pull :: rest) =
        runOps E (ffw_audio_resampler_take_frame r).2.2 rest := by
      simp [runOps, hq]
    rw [hrw]
    exact ih (ffw_audio_resampler_take_frame r).2.2 hd'
      (fun o ho => hops o (List.mem_cons_of_mem _ ho))

/-- Pulling from a flush-ready state emits at most one frame in total. -/
theorem run_flushReady {σ : Type} (E : SwrApi σ) (ops : List Op) :
    ∀ r : AudioResampler σ, FlushReady r → (∀ op ∈ ops, op = Op.pull) →
      (runOps E r ops).2.length ≤ 1 := by
  induction ops with
  | nil =>
    intro r _ _
    exact Nat.zero_le 1
  | cons op rest ih =>
    intro r hf hops
    have hop : op = Op.pull := hops op (List.mem_cons_self _ _)
    subst hop
    have hops' : ∀ op ∈ rest, op = Op.pull :=
      fun o ho => hops o (List.mem_cons_of_mem _ ho)
    rcases take_flushReady r hf with ⟨hf', hq⟩ | hd
    · have hrw : runOps E r (Op.pull :: rest) =
          runOps E (ffw_audio_resampler_take_frame r).2.2 rest := by
        simp [runOps, hq]
      rw [hrw]
      exact ih (ffw_audio_resampler_take_frame r).2.2 hf' hops'
    · have hrest : (runOps E (ffw_audio_resampler_take_frame r).2.2 rest).2 = [] :=
        run_dead E rest (ffw_audio_resampler_take_frame r).2.2 hd hops'
      cases hq : (ffw_audio_resampler_take_frame r).2.1 with
      | some g =>
        have hrw : runOps E r (Op.pull :: rest) =
            ((runOps E (ffw_audio_resampler_take_frame r).2.2 rest).1,
              g :: (runOps E (ffw_audio_resampler_take_frame r).2.2 rest).2) := by
          simp [runOps, hq]
        rw [hrw]
        simp [hrest]
      | none =>
        have hrw : runOps E r (Op.pull :: rest) =
            runOps E (ffw_audio_resampler_take_frame r).2.2 rest := by
          simp [runOps, hq]
        rw [hrw, hrest]
        exact Nat.zero_le 1

/-- In a frame list split as `A ++ B` with every `A`-frame full and `B`
either all-full or at most a single frame, every frame except possibly the
last one is full. -/
theorem frames_full_at (L A B : List Frame) (tgt : Nat) (hL : L = A ++ B)
    (hA : ∀ f ∈ A, f.nb_samples = tgt)
    (hB : (∀ f ∈ B, f.nb_samples = tgt) ∨ B.length ≤ 1)
    (i : Nat) (hi : i + 1 < L.length) :
    (L.get ⟨i, Nat.lt_of_succ_lt hi⟩).nb_samples = tgt := by
  subst hL
  rcases hB with hB | hB
  · have hmem := List.get_mem (A ++ B) i (Nat.lt_of_succ_lt hi)
    rcases List.mem_append.mp hmem with h | h
    · exact hA _ h
    · exact hB _ h
  · have hlen := List.length_append A B
    have hiA : i < A.length := by omega
    rw [List.get_append i hiA]
    exact hA _ (List.get_mem A i hiA)

/-- C5: in fixed-size mode, over any operation sequence made of pushes and
pulls followed by a single end-of-input flush and its draining pulls, every
emitted frame except possibly the very last one has exactly the configured
frame size. -/
theorem fixed_size_frames_full_before_flush {σ : Type} (E : SwrApi σ) (ctx : σ)
    (tcl tsf tsr tfs ssr : Nat) (htgt : 0 < tfs)
    (pre post : List Op)
    (hpre : ∀ op ∈ pre, op ≠ Op.pushEnd)
    (hpost : ∀ op ∈ post, op = Op.pull)
    (i : Nat)
    (hi : i + 1 < ((runOps E (ffw_audio_resampler_new ctx tcl tsf tsr tfs ssr)
      (pre ++ Op.pushEnd :: post)).2).length) :
    (((runOps E (ffw_audio_resampler_new ctx tcl tsf tsr tfs ssr)
      (pre ++ Op.pushEnd :: post)).2).get ⟨i, Nat.lt_of_succ_lt hi⟩).nb_samples
      = tfs := by
  have hinv0 : Inv1 (ffw_audio_resampler_new ctx tcl tsf tsr tfs ssr) := by
    refine ⟨rfl, htgt, ?_, ?_⟩
    · intro o ho
      exact Option.noConfusion ho
    · intro t ht
      exact Option.noConfusion ht
  have hsteady := run_steady E pre _ hinv0 hpre
  have hpost' : ∀ op ∈ post, op ≠ Op.pushEnd := by
    intro o ho
    rw [hpost o ho]
    intro h
    cases h
  cases hs : (runOps E (ffw_audio_resampler_new ctx tcl tsf tsr tfs ssr) pre).1 with
  | none =>
    have hrw := runOps_append_none E pre _ (Op.pushEnd :: post) hs
    refine frames_full_at _
      (runOps E (ffw_audio_resampler_new ctx tcl tsf tsr tfs ssr) pre).2 [] tfs
      (by rw [hrw]; simp) hsteady.1 (Or.inr (by simp)) i hi
  | some s =>
    have hrw := runOps_append_some E pre _ s (Op.pushEnd :: post) hs
    rcases hsteady.2 s hs with ⟨hinvS, htgS⟩
    refine frames_full_at _
      (runOps E (ffw_audio_resampler_new ctx tcl tsf tsr tfs ssr) pre).2
      (runOps E s (Op.pushEnd :: post)).2 tfs (by rw [hrw]) hsteady.1 ?_ i hi
    cases hp : ffw_audio_resampler_push_frame E s none with
    | none =>
      have hB : (runOps E s (Op.pushEnd :: post)).2 = [] := by
        simp [runOps, hp]
      rw [hB]
      exact Or.inr (by simp)
    | some p =>
      have hB : (runOps E s (Op.pushEnd :: post)).2 = (runOps E p.2 post).2 := by
        simp [runOps, hp]
      have htgp := push_target E s none p hp
      rw [hB]
      rcases pushEnd_inv1 E s p hinvS hp with hI | hF
      · left
        intro f hf
        have := (run_steady E post p.2 hI hpost').1 f hf
        rw [this, htgp]
        exact htgS
      · exact Or.inr (run_flushReady E post p.2 hF hpost)

/-- Witness for C5: a concrete run (push 4 samples, pull twice, flush, pull)
whose first emitted frame — not the last one — has exactly the configured
size 2. -/
theorem fixed_size_frames_full_before_flush_witness :
    (((runOps testSwr (ffw_audio_resampler_new () 3 1 48000 2 48000)
        ([Op.push flat4, Op.pull, Op.pull] ++ Op.pushEnd :: [Op.pull])).2).get
      ⟨0, Nat.lt_of_succ_lt (by decide)⟩).nb_samples = 2 :=
  fixed_size_frames_full_before_flush testSwr () 3 1 48000 2 48000 (by decide)
    [Op.push flat4, Op.pull, Op.pull] [Op.pull] (by decide) (by decide) 0 (by decide)
